import Mathlib

/-!
Shallow embedding of the `mint` event-emitter library (github.com/btvoidx/mint).

The repository holds several iterations of the same small library:
* the capability-shape core (`Emitter` with `subs`, `before`, `after`;
  `Emit`, `On`, `Use`) — modelled below as `Mint.Emitter`, `Mint.Emit`,
  `Mint.On`, `Mint.Off`, `Mint.Use`;
* the channel-based variant of `On` whose `off` closure deletes the key and
  closes the channel — modelled as `Mint.ChanEmitter`, `Mint.OnChan`,
  `Mint.OffChan`;
* the context-aware variant (`mint/context`) whose `Emit` takes a
  cancellation token and returns `ctx.Err()` — modelled as `Mint.CtxEmitter`,
  `Mint.EmitCtx`, `Mint.OnCtx`, `Mint.OffCtx`.

Subscriber callbacks, plugin hooks and channels act on an abstract world
state `σ` (the mutable state the Go closures capture).  Dispatch functions
additionally return a trace (`List Ev`) recording, in execution order, which
before-hooks, subscribers, after-hooks and context-plugins ran.
-/

namespace Mint

/-- Static shapes (Go types used as the generic parameter `T` at `On`/`Emit`
call sites).  `anyT` is the open shape `any`; `event` is the test suite's
`event` struct; `intT` mirrors `int` used by the unsubscribe tests. -/
inductive Ty
  | event
  | anyT
  | intT
deriving DecidableEq

/-- Runtime values flowing through `Emit`.  The `event` struct's two string
fields are abstracted to numerals (their contents are never inspected by the
library). -/
inductive Val
  | ev (f1 f2 : Nat)
  | iv (n : Int)
  | unitV
deriving DecidableEq

/-- Trace events recorded by the dispatch models: which before-hook index,
subscriber key, after-hook index, or context-plugin index ran. -/
inductive Ev
  | beforeRun (i : Nat)
  | subRun (k : Nat)
  | afterRun (i : Nat)
  | pluginRun (i : Nat)
deriving DecidableEq

variable {σ : Type}

/-- A stored subscription: the declared shape `T` it was registered for and
the callback.  In the Go core the callback is stored as `any` and recovered
with the type assertion `fn.(func(T))`; the assertion succeeds exactly when
the declared shapes agree, which the model captures with the `shape` tag. -/
structure Sub (σ : Type) where
  shape : Ty
  fn : σ → Val → σ

/-- The core `Emitter` (capability-shape iteration): a subscription-id
counter `idc`, the keyed subscription set `subs` (a Go map with unique keys,
modelled as an association list), the `before` hooks (receive a pointer to
the value, may rewrite it, return `block`), and the `after` hooks (receive a
pointer to the value).  The `singleThread` flag only selects locking and
same-thread delivery in Go; both branches run the same
before/deliver/after sequence. -/
structure Emitter (σ : Type) where
  singleThread : Bool := false
  idc : Nat := 0
  subs : List (Nat × Sub σ) := []
  before : List (σ → Val → σ × Val × Bool) := []
  after : List (σ → Val → σ × Val) := []

/-- Result of running the before-hook chain. -/
structure BOut (σ : Type) where
  s : σ
  v : Val
  blocked : Bool
  tr : List Ev

/-- The before-hook loop of `Emit`: `for _, h := range e.before { if h(&v)
{ return } }`.  Hooks run in list order starting at index `i`; a hook that
returns `true` stops the chain immediately (it is recorded in the trace,
hooks after it are not run). -/
def runBefores (bs : List (σ → Val → σ × Val × Bool)) (s : σ) (v : Val) (i : Nat) : BOut σ :=
  match bs with
  | [] => ⟨s, v, false, []⟩
  | b :: rest =>
    let r := b s v
    if r.2.2 then ⟨r.1, r.2.1, true, [.beforeRun i]⟩
    else
      let o := runBefores rest r.1 r.2.1 (i + 1)
      ⟨o.s, o.v, o.blocked, .beforeRun i :: o.tr⟩

/-- The delivery loop of `Emit`: each collected subscription's callback is
invoked with the (post-before) value.  In single-thread mode Go runs them
sequentially on the calling thread; in the default mode it spawns one
goroutine per callback and waits on a `WaitGroup` — the set of invoked
subscriptions is the same, only the interleaving differs, so the model runs
them in list order. -/
def runSubs (fns : List (Nat × Sub σ)) (s : σ) (v : Val) : σ × List Ev :=
  match fns with
  | [] => (s, [])
  | p :: rest =>
    let s1 := p.2.fn s v
    let o := runSubs rest s1 v
    (o.1, .subRun p.1 :: o.2)

/-- Result of running the after-hook chain. -/
structure AOut (σ : Type) where
  s : σ
  v : Val
  tr : List Ev

/-- The after-hook loop of `Emit`: `for _, h := range e.after { h(&v) }`,
in list order starting at index `i`. -/
def runAfters (hs : List (σ → Val → σ × Val)) (s : σ) (v : Val) (i : Nat) : AOut σ :=
  match hs with
  | [] => ⟨s, v, []⟩
  | h :: rest =>
    let r := h s v
    let o := runAfters rest r.1 r.2 (i + 1)
    ⟨o.s, o.v, .afterRun i :: o.tr⟩

/-- `Emit[T](e, v)` of the capability-shape core: collect the subscriptions
whose stored callback is a `func(T)` (shape equal to the call site's `T`),
run the before-hooks (stopping on veto), deliver the possibly rewritten
value to the collected subscriptions, then run the after-hooks.  Returns the
final world state and the execution trace. -/
def Emit (e : Emitter σ) (T : Ty) (v : Val) (s : σ) : σ × List Ev :=
  let fns := e.subs.filter fun p => decide (p.2.shape = T)
  let bo := runBefores e.before s v 0
  if bo.blocked then (bo.s, bo.tr)
  else
    let so := runSubs fns bo.s bo.v
    let ao := runAfters e.after so.1 bo.v 0
    (ao.s, bo.tr ++ so.2 ++ ao.tr)

/-- `On[T](e, fn)` of the capability-shape core: `key := e.idc.Add(1);
e.subs[key] = fn`.  Returns the updated emitter and the key the returned
`off` closure captures. -/
def On (e : Emitter σ) (T : Ty) (fn : σ → Val → σ) : Emitter σ × Nat :=
  let key := e.idc + 1
  ({ e with idc := key, subs := e.subs ++ [(key, ⟨T, fn⟩)] }, key)

/-- Invoking the `off` closure returned by `On`, after its removal has
completed: `delete(e.subs, key)`.  (The Go closure is guarded by a
`sync.Once` and may defer the delete to a goroutine; this models the state
once the removal has run.) -/
def Off (e : Emitter σ) (key : Nat) : Emitter σ :=
  { e with subs := e.subs.filter fun p => decide (p.1 ≠ key) }

/-- Errors returned by `Use`: `errHIsNil` models `errors.New("h is nil")`,
`errInvalidHandler` models the "h is not a valid interface" error. -/
inductive UseErr
  | errHIsNil
  | errInvalidHandler
deriving DecidableEq

/-- A plugin handler passed to `Use`, with the three capability shapes the
registration inspects independently with type assertions:
`interface{ BeforeEmit(v any) }` (observe-only), `interface{ BeforeEmit(v
any) bool }` (vetoing), `interface{ AfterEmit(v any) }`.  A capability the
concrete handler lacks is `none`.  The hooks receive a pointer to the value,
so each may rewrite it. -/
structure Handler (σ : Type) where
  beforeObs : Option (σ → Val → σ × Val) := none
  beforeVeto : Option (σ → Val → σ × Val × Bool) := none
  afterObs : Option (σ → Val → σ × Val) := none

/-- Whether `h` implements at least one of the three capability interfaces
(the condition under which `Use` ends with `err = nil`). -/
def Handler.exposes (h : Handler σ) : Bool :=
  h.beforeObs.isSome || h.beforeVeto.isSome || h.afterObs.isSome

/-- How many of the three capability shapes `h` exposes (each one becomes a
separate pipeline entry). -/
def Handler.exposedCount (h : Handler σ) : Nat :=
  (if h.beforeObs.isSome then 1 else 0) +
    (if h.beforeVeto.isSome then 1 else 0) +
    (if h.afterObs.isSome then 1 else 0)

/-- The wrapper `Use` builds around an observe-only `BeforeEmit`:
`func(v any) bool { h.BeforeEmit(v); return false }`. -/
def wrapObs (f : σ → Val → σ × Val) : σ → Val → σ × Val × Bool :=
  fun s v => ((f s v).1, (f s v).2, false)

/-- `Use(e, h)` of the capability-shape core: reject a nil handler; check
the three capability interfaces independently, appending one pipeline entry
per exposed shape (observe-only before first, vetoing before second, after
third); return nil error exactly when at least one shape matched. -/
def Use (e : Emitter σ) (h : Option (Handler σ)) : Emitter σ × Option UseErr :=
  match h with
  | none => (e, some .errHIsNil)
  | some h =>
    let e1 := match h.beforeObs with
      | some f => { e with before := e.before ++ [wrapObs f] }
      | none => e
    let e2 := match h.beforeVeto with
      | some f => { e1 with before := e1.before ++ [f] }
      | none => e1
    let e3 := match h.afterObs with
      | some f => { e2 with after := e2.after ++ [f] }
      | none => e2
    if h.exposes then (e3, none) else (e3, some .errInvalidHandler)

/-- Go runtime faults the models can hit: closing an already-closed channel,
and calling a method on a nil interface value. -/
inductive GoPanic
  | closeOfClosedChan
  | nilCtxMethodCall
deriving DecidableEq

/-- The channel-based emitter of the core file's channel iteration: key
counter `kc`, subscriptions mapping key to a channel.  `nextCh` allocates
channel identities; `closed` records which of those channels have been
closed (runtime channel state, kept here so the model is one value). -/
structure ChanEmitter where
  kc : Nat := 0
  subs : List (Nat × Nat) := []
  nextCh : Nat := 0
  closed : List Nat := []
deriving DecidableEq

/-- `On[T](e)` of the channel iteration: `k := e.kc; chn := make(chan T);
e.kc += 1; e.subs[k] = chn`.  Returns the updated emitter, the key and the
fresh channel. -/
def OnChan (e : ChanEmitter) : ChanEmitter × Nat × Nat :=
  let k := e.kc
  let ch := e.nextCh
  ({ e with kc := k + 1, nextCh := ch + 1, subs := e.subs ++ [(k, ch)] }, k, ch)

/-- `close(chn)`: closing a channel marks it closed; closing an
already-closed channel is a runtime panic. -/
def closeChan (closed : List Nat) (ch : Nat) : Except GoPanic (List Nat) :=
  if ch ∈ closed then .error .closeOfClosedChan else .ok (ch :: closed)

/-- Invoking the `off` closure returned by the channel iteration's `On`:
`delete(e.subs, k); close(chn)`.  This closure has no once-guard, so each
invocation closes the channel again. -/
def OffChan (e : ChanEmitter) (k ch : Nat) : Except GoPanic ChanEmitter :=
  let e1 := { e with subs := e.subs.filter fun p => decide (p.1 ≠ k) }
  (closeChan e1.closed ch).map fun cl => { e1 with closed := cl }

/-- Cancellation errors a token can report (`context.Canceled`,
`context.DeadlineExceeded`). -/
inductive CtxErr
  | canceled
  | deadlineExceeded
deriving DecidableEq

/-- A cancellation token (`context.Context`): its `Err()` method reads the
current cancellation status, which subscriber callbacks may change through
the world state (cancellation is cooperative). -/
structure Ctx (σ : Type) where
  err : σ → Option CtxErr

/-- The non-cancellable `context.Background()` token: `Err()` is always nil. -/
def background : Ctx σ := ⟨fun _ => none⟩

/-- The cancellation status `ctx.Err()` would report in state `s`, with an
absent token standing for the substituted background token. -/
def tokenStatus (ctx : Option (Ctx σ)) (s : σ) : Option CtxErr :=
  match ctx with
  | none => none
  | some c => c.err s

/-- A subscription bucket of the context iteration: the inner
`map[uint64]func(context.Context, T)` for one shape. -/
abbrev Bucket (σ : Type) := List (Nat × (σ → Val → σ))

/-- The context iteration's `Emitter`: id counter `subc`, plugin list, and
the two-level subscription map `map[key[T]{}]map[uint64]any`, modelled as an
association list from shape to bucket.  A plugin receives the token and the
value (the token is reachable through the world state here) and returns an
optional cleanup action. -/
structure CtxEmitter (σ : Type) where
  subc : Nat := 0
  plugins : List (σ → Val → σ × Option (σ → σ)) := []
  subs : List (Ty × Bucket σ) := []

/-- Go map lookup `e.subs[key[T]{}]` on the shape-to-bucket map. -/
def lookupBucket (subs : List (Ty × Bucket σ)) (T : Ty) : Option (Bucket σ) :=
  match subs with
  | [] => none
  | p :: rest => if p.1 = T then some p.2 else lookupBucket rest T

/-- Go map store `e.subs[key[T]{}] = b`: replace the bucket if the shape is
present, otherwise add the entry. -/
def setBucket (subs : List (Ty × Bucket σ)) (T : Ty) (b : Bucket σ) : List (Ty × Bucket σ) :=
  match subs with
  | [] => [(T, b)]
  | p :: rest => if p.1 = T then (T, b) :: rest else p :: setBucket rest T b

/-- Go map delete `delete(e.subs, key[T]{})` on the shape-to-bucket map. -/
def eraseBucket (subs : List (Ty × Bucket σ)) (T : Ty) : List (Ty × Bucket σ) :=
  match subs with
  | [] => []
  | p :: rest => if p.1 = T then rest else p :: eraseBucket rest T

/-- The plugin loop of the context iteration's `Emit`: `after := fn(ctx, v);
if after != nil { func() { defer after() }() }` — each plugin runs in order
and its returned cleanup, if any, runs immediately after it (the inner
function returns at once, firing its deferred call). -/
def runPlugins (ps : List (σ → Val → σ × Option (σ → σ))) (s : σ) (v : Val) (i : Nat) :
    σ × List Ev :=
  match ps with
  | [] => (s, [])
  | p :: rest =>
    let r := p s v
    let s2 := match r.2 with
      | none => r.1
      | some cleanup => cleanup r.1
    let o := runPlugins rest s2 v (i + 1)
    (o.1, .pluginRun i :: o.2)

/-- The subscriber loop of the context iteration's `Emit`: before each
callback, read `ctx.Err()`; if it is non-nil return that error at once
(skipping the remaining subscribers), otherwise invoke the callback with the
token and the value. -/
def runCtxSubs (c : Ctx σ) (b : Bucket σ) (s : σ) (v : Val) :
    σ × Option CtxErr × List Ev :=
  match b with
  | [] => (s, none, [])
  | p :: rest =>
    match c.err s with
    | some er => (s, some er, [])
    | none =>
      let s1 := p.2 s v
      let o := runCtxSubs c rest s1 v
      (o.1, o.2.1, .subRun p.1 :: o.2.2)

/-- `Emit[T](e, ctx, v)` of the context iteration.  A nil emitter returns
`ctx.Err()` immediately — which is a nil-interface method call (runtime
panic) when the token is also nil.  Otherwise a nil token is replaced by
`context.Background()`; the plugins run; if no bucket is registered for `T`
the call returns `ctx.Err()`; otherwise the subscriber loop runs with its
per-subscriber cancellation check, and the call returns the loop's early
error or the final `ctx.Err()`. -/
def EmitCtx (e : Option (CtxEmitter σ)) (ctx : Option (Ctx σ)) (T : Ty) (v : Val) (s : σ) :
    Except GoPanic (σ × Option CtxErr × List Ev) :=
  match e with
  | none =>
    match ctx with
    | none => .error .nilCtxMethodCall
    | some c => .ok (s, c.err s, [])
  | some e =>
    let c := ctx.getD background
    let po := runPlugins e.plugins s v 0
    match lookupBucket e.subs T with
    | none => .ok (po.1, c.err po.1, po.2)
    | some b =>
      let o := runCtxSubs c b po.1 v
      match o.2.1 with
      | some er => .ok (o.1, some er, po.2 ++ o.2.2)
      | none => .ok (o.1, c.err o.1, po.2 ++ o.2.2)

/-- `On[T](e, fn)` of the context iteration: create the bucket for `T` when
missing, assign `id := e.subc`, increment `subc`, store the callback in the
bucket.  Returns the updated emitter and the id the `off` closure captures. -/
def OnCtx (e : CtxEmitter σ) (T : Ty) (fn : σ → Val → σ) : CtxEmitter σ × Nat :=
  let b := (lookupBucket e.subs T).getD []
  let id := e.subc
  ({ e with subc := id + 1, subs := setBucket e.subs T (b ++ [(id, fn)]) }, id)

/-- Invoking the `off` closure returned by the context iteration's `On`
(once its once-guarded removal goroutine has completed):
`delete(e.subs[key[T]{}], id); if len(e.subs[key[T]{}]) == 1 {
delete(e.subs, key[T]{}) }` — after removing `id` from the bucket, the WHOLE
bucket is dropped when exactly one subscription remains in it.  A missing
bucket makes both the delete and the length check no-ops. -/
def OffCtx (e : CtxEmitter σ) (T : Ty) (id : Nat) : CtxEmitter σ :=
  match lookupBucket e.subs T with
  | none => e
  | some b =>
    let b1 := b.filter fun p => decide (p.1 ≠ id)
    if b1.length = 1 then { e with subs := eraseBucket e.subs T }
    else { e with subs := setBucket e.subs T b1 }

mutual

/-- Emit on the emitter of the recursive-broadcast test (`TestEmitRecursive`):
one subscriber is registered, so dispatch collects that single callback and
invokes it with the current counter state `i`. -/
def EmitRec (i : Nat) : Nat :=
  recConsumer i
termination_by 2 * (5 - i) + 1

/-- The recursive test's subscriber body: `if i < 5 { i += 1; mint.Emit(e,
event{}) }` — while the counter is below 5, increment it and re-broadcast on
the same emitter from inside the callback. -/
def recConsumer (i : Nat) : Nat :=
  if h : i < 5 then EmitRec (i + 1) else i
termination_by 2 * (5 - i)

end

/-- The before-pipeline entries `Use` appends for handler `h`: the wrapped
observe-only hook (if exposed) followed by the vetoing hook (if exposed). -/
def Handler.beforeEntries (h : Handler σ) : List (σ → Val → σ × Val × Bool) :=
  (h.beforeObs.map wrapObs).toList ++ h.beforeVeto.toList

/-- The after-pipeline entries `Use` appends for handler `h`. -/
def Handler.afterEntries (h : Handler σ) : List (σ → Val → σ × Val) :=
  h.afterObs.toList

/-! ### Helper lemmas about the dispatch loops -/

/-- Every trace event produced by the before-hook loop is a `beforeRun`. -/
theorem runBefores_tr_before (bs : List (σ → Val → σ × Val × Bool)) (s : σ) (v : Val)
    (i : Nat) : ∀ ev ∈ (runBefores bs s v i).tr, ∃ j, ev = Ev.beforeRun j := by
  induction bs generalizing s v i with
  | nil => intro ev hev; simp [runBefores] at hev
  | cons b rest ih =>
    intro ev hev
    simp only [runBefores] at hev
    by_cases hb : (b s v).2.2
    · simp [hb] at hev
      exact ⟨i, hev⟩
    · simp [hb] at hev
      rcases hev with rfl | hev
      · exact ⟨i, rfl⟩
      · exact ih _ _ _ ev hev

/-- When no before-hook vetoes, the before-hook loop runs every hook, in
list order. -/
theorem runBefores_not_blocked_tr (bs : List (σ → Val → σ × Val × Bool)) (s : σ) (v : Val)
    (i : Nat) (hnb : (runBefores bs s v i).blocked = false) :
    (runBefores bs s v i).tr = (List.range' i bs.length).map Ev.beforeRun := by
  induction bs generalizing s v i with
  | nil => simp [runBefores]
  | cons b rest ih =>
    by_cases hbv : (b s v).2.2 = true
    · exfalso
      simp [runBefores, hbv] at hnb
    · simp only [runBefores, hbv, if_false, List.length_cons] at hnb ⊢
      rw [List.range'_succ, List.map_cons]
      exact congrArg _ (ih _ _ _ hnb)

/-- A before-hook that always vetoes, present at position `i`, makes the
before-hook loop stop blocked, having run only hooks up to index `i`. -/
theorem runBefores_blocker (bs : List (σ → Val → σ × Val × Bool)) (i : Nat)
    (h : σ → Val → σ × Val × Bool) (hget : bs[i]? = some h)
    (hblk : ∀ s v, (h s v).2.2 = true) (i0 : Nat) (s : σ) (v : Val) :
    (runBefores bs s v i0).blocked = true ∧
      ∀ ev ∈ (runBefores bs s v i0).tr, ∃ j, ev = Ev.beforeRun j ∧ j ≤ i0 + i := by
  induction bs generalizing i i0 s v with
  | nil => simp at hget
  | cons b rest ih =>
    cases i with
    | zero =>
      rw [List.getElem?_cons_zero, Option.some.injEq] at hget
      subst hget
      constructor
      · simp [runBefores, hblk s v]
      · intro ev hev
        simp [runBefores, hblk s v] at hev
        exact ⟨i0, hev, Nat.le_refl _⟩
    | succ n =>
      rw [List.getElem?_cons_succ] at hget
      by_cases hbv : (b s v).2.2 = true
      · constructor
        · simp [runBefores, hbv]
        · intro ev hev
          simp [runBefores, hbv] at hev
          exact ⟨i0, hev, Nat.le_add_right _ _⟩
      · obtain ⟨hblocked, htr⟩ := ih n hget (i0 + 1) (b s v).1 (b s v).2.1
        constructor
        · simp [runBefores, hbv, hblocked]
        · intro ev hev
          simp [runBefores, hbv] at hev
          rcases hev with rfl | hev
          · exact ⟨i0, rfl, Nat.le_add_right _ _⟩
          · obtain ⟨j, rfl, hj⟩ := htr ev hev
            exact ⟨j, rfl, by omega⟩

/-- The delivery loop invokes exactly the collected subscriptions, in list
order, recording their keys. -/
theorem runSubs_tr (fns : List (Nat × Sub σ)) (s : σ) (v : Val) :
    (runSubs fns s v).2 = fns.map fun p => Ev.subRun p.1 := by
  induction fns generalizing s with
  | nil => simp [runSubs]
  | cons p rest ih => simp [runSubs, ih]

/-- The after-hook loop runs every hook, in list order. -/
theorem runAfters_tr (hs : List (σ → Val → σ × Val)) (s : σ) (v : Val) (i : Nat) :
    (runAfters hs s v i).tr = (List.range' i hs.length).map Ev.afterRun := by
  induction hs generalizing s v i with
  | nil => simp [runAfters]
  | cons h rest ih =>
    simp only [runAfters, List.length_cons]
    rw [List.range'_succ, List.map_cons]
    exact congrArg _ (ih _ _ _)

/-- The context-variant plugin loop runs every plugin, in list order. -/
theorem runPlugins_tr (ps : List (σ → Val → σ × Option (σ → σ))) (s : σ) (v : Val)
    (i : Nat) : (runPlugins ps s v i).2 = (List.range' i ps.length).map Ev.pluginRun := by
  induction ps generalizing s v i with
  | nil => simp [runPlugins]
  | cons p rest ih =>
    simp only [runPlugins, List.length_cons]
    rw [List.range'_succ, List.map_cons]
    exact congrArg _ (ih _ _ _)

/-- A subscriber key in an `Emit` trace belongs to a stored subscription
whose declared shape is exactly the emitted shape. -/
theorem Emit_subRun_mem (e : Emitter σ) (T : Ty) (v : Val) (s : σ) (k : Nat)
    (hmem : Ev.subRun k ∈ (Emit e T v s).2) :
    ∃ f : Sub σ, (k, f) ∈ e.subs ∧ f.shape = T := by
  by_cases hb : (runBefores e.before s v 0).blocked = true
  · have htr : (Emit e T v s).2 = (runBefores e.before s v 0).tr := by
      simp [Emit, hb]
    rw [htr] at hmem
    obtain ⟨j, hj⟩ := runBefores_tr_before e.before s v 0 _ hmem
    simp at hj
  · have htr : (Emit e T v s).2 =
        (runBefores e.before s v 0).tr ++
          ((runSubs (e.subs.filter fun p => decide (p.2.shape = T))
              (runBefores e.before s v 0).s (runBefores e.before s v 0).v).2 ++
            (runAfters e.after
              (runSubs (e.subs.filter fun p => decide (p.2.shape = T))
                (runBefores e.before s v 0).s (runBefores e.before s v 0).v).1
              (runBefores e.before s v 0).v 0).tr) := by
      simp [Emit, hb]
    rw [htr, runSubs_tr, runAfters_tr] at hmem
    rcases List.mem_append.mp hmem with h1 | h23
    · obtain ⟨j, hj⟩ := runBefores_tr_before e.before s v 0 _ h1
      simp at hj
    · rcases List.mem_append.mp h23 with h2 | h3
      · obtain ⟨p, hp, hpk⟩ := List.mem_map.mp h2
        obtain ⟨hpmem, hpdec⟩ := List.mem_filter.mp hp
        have hk : p.1 = k := by
          simpa using hpk
        refine ⟨p.2, ?_, of_decide_eq_true hpdec⟩
        rw [← hk]
        exact hpmem
      · obtain ⟨q, hq, hqk⟩ := List.mem_map.mp h3
        simp at hqk

/-- If the context-variant subscriber loop stops with an error, that error
is exactly the token's status in the state the loop stops in. -/
theorem runCtxSubs_some_err (c : Ctx σ) (b : Bucket σ) (s : σ) (v : Val) (er : CtxErr)
    (h : (runCtxSubs c b s v).2.1 = some er) :
    c.err (runCtxSubs c b s v).1 = some er := by
  induction b generalizing s with
  | nil => simp [runCtxSubs] at h
  | cons p rest ih =>
    simp only [runCtxSubs] at h ⊢
    cases hc : c.err s with
    | some er0 =>
      simp only [hc, Option.some.injEq] at h ⊢
      exact h
    | none =>
      simp only [hc] at h ⊢
      exact ih _ h

/-- With the background token the subscriber loop never stops early. -/
theorem runCtxSubs_background (b : Bucket σ) (s : σ) (v : Val) :
    (runCtxSubs (background : Ctx σ) b s v).2.1 = none := by
  induction b generalizing s with
  | nil => simp [runCtxSubs]
  | cons p rest ih =>
    simp only [runCtxSubs, background]
    exact ih _

/-! ### Claim theorems -/

/-- C1: exact-shape delivery.  A subscriber is invoked by `Emit` only when
its declared shape equals the shape declared at the `Emit` call site; in
particular, after subscribing for the open shape `any`, broadcasting a
concrete `event` value invokes nothing — the `any` subscriber is not called
and the world state is untouched. -/
theorem C1_exact_shape_delivery :
    (∀ (e : Emitter σ) (T : Ty) (v : Val) (s : σ) (k : Nat),
        Ev.subRun k ∈ (Emit e T v s).2 →
          ∃ f : Sub σ, (k, f) ∈ e.subs ∧ f.shape = T) ∧
    (let p := On ({} : Emitter Bool) Ty.anyT fun _ _ => true
     Emit p.1 Ty.event (Val.ev 0 0) false = (false, [])) := by
  constructor
  · intro e T v s k hmem
    exact Emit_subRun_mem e T v s k hmem
  · rfl

/-- C1 witness: a concretely registered `event` subscriber whose key shows
up in an `Emit[event]` trace is indeed stored with shape `event`. -/
theorem C1_exact_shape_delivery_witness :
    ∃ f : Sub Bool,
      (1, f) ∈ (On ({} : Emitter Bool) Ty.event fun _ _ => true).1.subs ∧
        f.shape = Ty.event :=
  C1_exact_shape_delivery.1 (On ({} : Emitter Bool) Ty.event fun _ _ => true).1
    Ty.event (Val.ev 0 0) false 1 (by decide)

/-- C2: a vetoing pre-dispatch handler short-circuits the broadcast.  If
some before-hook at position `i` always returns `true`, then for every
broadcast no subscriber is invoked, no after-hook runs, and no before-hook
past position `i` runs. -/
theorem C2_veto_short_circuits :
    ∀ (e : Emitter σ) (i : Nat) (h : σ → Val → σ × Val × Bool),
      e.before[i]? = some h → (∀ s v, (h s v).2.2 = true) →
      ∀ (T : Ty) (v : Val) (s : σ),
        (∀ k, Ev.subRun k ∉ (Emit e T v s).2) ∧
        (∀ j, Ev.afterRun j ∉ (Emit e T v s).2) ∧
        (∀ j, Ev.beforeRun j ∈ (Emit e T v s).2 → j ≤ i) := by
  intro e i h hget hblk T v s
  obtain ⟨hblocked, htr⟩ := runBefores_blocker e.before i h hget hblk 0 s v
  have htrace : (Emit e T v s).2 = (runBefores e.before s v 0).tr := by
    simp [Emit, hblocked]
  refine ⟨?_, ?_, ?_⟩
  · intro k hk
    rw [htrace] at hk
    obtain ⟨j, hj, _⟩ := htr _ hk
    simp at hj
  · intro j hj
    rw [htrace] at hj
    obtain ⟨j', hj', _⟩ := htr _ hj
    simp at hj'
  · intro j hj
    rw [htrace] at hj
    obtain ⟨j', hj', hle⟩ := htr _ hj
    simp only [Ev.beforeRun.injEq] at hj'
    omega

/-- C2 witness: with one always-vetoing before-hook and one subscriber, an
`Emit` trace contains no subscriber invocation and no after-hook run. -/
theorem C2_veto_short_circuits_witness :
    Ev.subRun 1 ∉
      (Emit { before := [fun (s : Nat) v => (s, v, true)],
              subs := [(1, ⟨Ty.event, fun s _ => s + 1⟩)] }
        Ty.event (Val.ev 0 0) 0).2 :=
  (C2_veto_short_circuits
      { before := [fun (s : Nat) v => (s, v, true)],
        subs := [(1, ⟨Ty.event, fun s _ => s + 1⟩)] }
      0 (fun (s : Nat) v => (s, v, true)) rfl (fun _ _ => rfl)
      Ty.event (Val.ev 0 0) 0).1 1

/-- C3: plugin ordering.  When no before-hook vetoes, a broadcast runs the
before-hooks in exactly registration order (indices 0,1,2,… of the
pipeline), then the matching subscribers, then the after-hooks in exactly
registration order; and `Use` registration always appends to the existing
pipelines, so pipeline position equals registration order. -/
theorem C3_plugin_registration_order :
    (∀ (e : Emitter σ) (T : Ty) (v : Val) (s : σ),
        (runBefores e.before s v 0).blocked = false →
        (Emit e T v s).2 =
          (List.range e.before.length).map Ev.beforeRun ++
            ((e.subs.filter fun p => decide (p.2.shape = T)).map fun p => Ev.subRun p.1) ++
            (List.range e.after.length).map Ev.afterRun) ∧
    (∀ (e : Emitter σ) (h : Handler σ),
        (Use e (some h)).1.before = e.before ++ h.beforeEntries ∧
          (Use e (some h)).1.after = e.after ++ h.afterEntries) := by
  constructor
  · intro e T v s hnb
    have hb : ¬((runBefores e.before s v 0).blocked = true) := by
      rw [hnb]; simp
    have htr := runBefores_not_blocked_tr e.before s v 0 hnb
    simp [Emit, hb, htr, runSubs_tr, runAfters_tr, List.range_eq_range']
  · intro e h
    obtain ⟨bo, bv, ao⟩ := h
    cases bo <;> cases bv <;> cases ao <;>
      simp [Use, Handler.beforeEntries, Handler.afterEntries, Handler.exposes]

/-- C3 witness: one handler registering a before-hook and an after-hook,
plus one matching subscriber: the broadcast trace is exactly
before-hook 0, subscriber, after-hook 0. -/
theorem C3_plugin_registration_order_witness :
    (Emit { before := [fun (s : Nat) v => (s, v, false)],
            after := [fun (s : Nat) v => (s, v)],
            subs := [(1, ⟨Ty.event, fun s _ => s + 1⟩)] }
        Ty.event (Val.ev 0 0) 0).2 =
      [Ev.beforeRun 0, Ev.subRun 1, Ev.afterRun 0] := by
  have h := (C3_plugin_registration_order (σ := Nat)).1
    { before := [fun (s : Nat) v => (s, v, false)],
      after := [fun (s : Nat) v => (s, v)],
      subs := [(1, ⟨Ty.event, fun s _ => s + 1⟩)] }
    Ty.event (Val.ev 0 0) 0 rfl
  simpa using h

/-- C4: unsubscribe stops future delivery.  After the removal performed by
the `off` handle for key `k` has completed, no broadcast delivers to `k`;
and in the concrete subscribe / emit 1 / off / emit 2 sequence the observed
state still holds value 1 after the second broadcast. -/
theorem C4_off_stops_future_delivery :
    (∀ (e : Emitter σ) (k : Nat) (T : Ty) (v : Val) (s : σ),
        Ev.subRun k ∉ (Emit (Off e k) T v s).2) ∧
    (let p := On ({} : Emitter Int) Ty.intT fun _ v =>
        match v with
        | .iv n => n
        | _ => 0
     let r1 := Emit p.1 Ty.intT (Val.iv 1) 0
     let e2 := Off p.1 p.2
     (r1.1 = 1 ∧ Emit e2 Ty.intT (Val.iv 2) r1.1 = (1, []))) := by
  constructor
  · intro e k T v s hmem
    obtain ⟨f, hf, _⟩ := Emit_subRun_mem (Off e k) T v s k hmem
    simp only [Off] at hf
    have := List.mem_filter.mp hf
    simp at this
  · exact ⟨rfl, rfl⟩

/-- C4 witness: the general part applied to the concrete one-subscriber
emitter: after `Off`, the removed key never appears in an `Emit` trace. -/
theorem C4_off_stops_future_delivery_witness :
    Ev.subRun 1 ∉
      (Emit (Off (On ({} : Emitter Int) Ty.intT fun s _ => s).1 1)
        Ty.intT (Val.iv 2) 0).2 :=
  C4_off_stops_future_delivery.1 (On ({} : Emitter Int) Ty.intT fun s _ => s).1
    1 Ty.intT (Val.iv 2) 0

/-- The token status a call with token `ctx` effectively observes is the
status of `ctx.getD background` (the nil-token substitution). -/
theorem tokenStatus_getD (ctx : Option (Ctx σ)) (s : σ) :
    tokenStatus ctx s = (ctx.getD background).err s := by
  cases ctx <;> rfl

/-- C5: the cancellation-aware `Emit` returns exactly the token's error
status at the moment it returns (on every non-faulting path); and a token
that is already cancelled (its status is a fixed error) yields zero
subscriber invocations and that cancellation error as the result. -/
theorem C5_ctx_emit_result_contract :
    (∀ (e : Option (CtxEmitter σ)) (ctx : Option (Ctx σ)) (T : Ty) (v : Val) (s : σ)
        (s' : σ) (r : Option CtxErr) (tr : List Ev),
        EmitCtx e ctx T v s = .ok (s', r, tr) → r = tokenStatus ctx s') ∧
    (∀ (em : CtxEmitter σ) (er : CtxErr) (T : Ty) (v : Val) (s : σ),
        ∃ s' tr,
          EmitCtx (some em) (some ⟨fun _ => some er⟩) T v s = .ok (s', some er, tr) ∧
            ∀ k, Ev.subRun k ∉ tr) := by
  constructor
  · intro e ctx T v s s' r tr heq
    cases e with
    | none =>
      cases ctx with
      | none => simp [EmitCtx] at heq
      | some c =>
        simp only [EmitCtx, Except.ok.injEq, Prod.mk.injEq] at heq
        obtain ⟨h1, h2, h3⟩ := heq
        subst h1
        rw [← h2]
        rfl
    | some em =>
      rw [tokenStatus_getD]
      cases hb : lookupBucket em.subs T with
      | none =>
        simp only [EmitCtx, hb, Except.ok.injEq, Prod.mk.injEq] at heq
        obtain ⟨h1, h2, h3⟩ := heq
        subst h1
        exact h2.symm
      | some b =>
        cases ho : (runCtxSubs (ctx.getD background) b (runPlugins em.plugins s v 0).1 v).2.1 with
        | some er =>
          simp only [EmitCtx, hb, ho, Except.ok.injEq, Prod.mk.injEq] at heq
          obtain ⟨h1, h2, h3⟩ := heq
          subst h1
          rw [← h2]
          exact (runCtxSubs_some_err _ _ _ _ _ ho).symm
        | none =>
          simp only [EmitCtx, hb, ho, Except.ok.injEq, Prod.mk.injEq] at heq
          obtain ⟨h1, h2, h3⟩ := heq
          subst h1
          exact h2.symm
  · intro em er T v s
    refine ⟨(runPlugins em.plugins s v 0).1, (runPlugins em.plugins s v 0).2, ?_, ?_⟩
    · cases hb : lookupBucket em.subs T with
      | none => simp [EmitCtx, hb]
      | some b =>
        cases b with
        | nil => simp [EmitCtx, hb, runCtxSubs]
        | cons p rest => simp [EmitCtx, hb, runCtxSubs]
    · intro k hk
      rw [runPlugins_tr] at hk
      simp at hk

/-- C5 witness: the result contract applied at a concrete call — a nil
emitter with the background token returns that token's (empty) status. -/
theorem C5_ctx_emit_result_contract_witness :
    (none : Option CtxErr) = tokenStatus (some (background : Ctx Nat)) 0 :=
  C5_ctx_emit_result_contract.1 none (some background) Ty.event (Val.ev 0 0) 0
    0 none [] rfl

/-- C6: nil handling in the cancellation-aware variant.  Broadcasting
through a nil emitter with an actual token does no work, does not fault and
returns the token's current status; broadcasting with a nil token
substitutes the background token, so the call proceeds without fault and
returns no error. -/
theorem C6_nil_emitter_and_nil_token :
    (∀ (c : Ctx σ) (T : Ty) (v : Val) (s : σ),
        EmitCtx (σ := σ) none (some c) T v s = .ok (s, c.err s, [])) ∧
    (∀ (em : CtxEmitter σ) (T : Ty) (v : Val) (s : σ),
        ∃ s' tr, EmitCtx (some em) none T v s = .ok (s', none, tr)) := by
  constructor
  · intro c T v s
    rfl
  · intro em T v s
    cases hb : lookupBucket em.subs T with
    | none =>
      refine ⟨(runPlugins em.plugins s v 0).1, (runPlugins em.plugins s v 0).2, ?_⟩
      simp [EmitCtx, hb, background]
    | some b =>
      refine ⟨(runCtxSubs background b (runPlugins em.plugins s v 0).1 v).1,
        (runPlugins em.plugins s v 0).2 ++
          (runCtxSubs background b (runPlugins em.plugins s v 0).1 v).2.2, ?_⟩
      simp only [EmitCtx, hb, Option.getD_none]
      rw [runCtxSubs_background]
      simp [background]

/-- C7: the plugin-registration error contract of `Use`.  A nil handler is
rejected with the nil-handler error; a handler exposing none of the three
capability shapes is rejected with the invalid-handler error and registers
nothing; a handler exposing at least one shape is accepted, each exposed
shape appended as its own pipeline entry behind the existing ones. -/
theorem C7_use_registration_contract :
    (∀ e : Emitter σ, Use e none = (e, some UseErr.errHIsNil)) ∧
    (∀ (e : Emitter σ) (h : Handler σ), h.exposes = false →
        Use e (some h) = (e, some UseErr.errInvalidHandler)) ∧
    (∀ (e : Emitter σ) (h : Handler σ), h.exposes = true →
        (Use e (some h)).2 = none ∧
          (Use e (some h)).1.before = e.before ++ h.beforeEntries ∧
          (Use e (some h)).1.after = e.after ++ h.afterEntries) ∧
    (∀ h : Handler σ, h.beforeEntries.length + h.afterEntries.length = h.exposedCount) := by
  refine ⟨?_, ?_, ?_, ?_⟩
  · intro e
    rfl
  · intro e h hx
    obtain ⟨bo, bv, ao⟩ := h
    cases bo <;> cases bv <;> cases ao <;> simp [Handler.exposes] at hx
    rfl
  · intro e h hx
    obtain ⟨bo, bv, ao⟩ := h
    cases bo <;> cases bv <;> cases ao <;>
      first
      | (refine ⟨rfl, ?_, ?_⟩ <;>
          simp [Use, Handler.beforeEntries, Handler.afterEntries, Handler.exposes])
      | exact absurd hx (by simp [Handler.exposes])
  · intro h
    obtain ⟨bo, bv, ao⟩ := h
    cases bo <;> cases bv <;> cases ao <;>
      simp [Handler.beforeEntries, Handler.afterEntries, Handler.exposedCount]

/-- C7 witness: a concrete handler exposing the vetoing before shape and the
after shape is accepted and appends exactly its two pipeline entries. -/
theorem C7_use_registration_contract_witness :
    (let h0 : Handler Nat :=
      { beforeVeto := some fun s v => (s, v, true), afterObs := some fun s v => (s, v) }
     (Use ({} : Emitter Nat) (some h0)).2 = none ∧
       (Use ({} : Emitter Nat) (some h0)).1.before =
         ({} : Emitter Nat).before ++ h0.beforeEntries ∧
       (Use ({} : Emitter Nat) (some h0)).1.after =
         ({} : Emitter Nat).after ++ h0.afterEntries) :=
  C7_use_registration_contract.2.2.1 ({} : Emitter Nat)
    { beforeVeto := some fun s v => (s, v, true), afterObs := some fun s v => (s, v) } rfl

/-- C8 counterexample: the `off` handle of the channel form is not
idempotent and can fault.  The first call removes the key and closes the
channel; the second call reaches `close` again on the already-closed
channel, a runtime panic — so two calls are not equivalent to one and
repeated invocation is not fault-free. -/
theorem C8_channel_off_second_call_faults :
    OffChan (OnChan ({} : ChanEmitter)).1 0 0 =
        .ok { kc := 1, subs := [], nextCh := 1, closed := [0] } ∧
      ((OffChan (OnChan ({} : ChanEmitter)).1 0 0).bind fun e2 => OffChan e2 0 0) =
        .error .closeOfClosedChan :=
  ⟨rfl, rfl⟩

/-- C8 amended: unsubscribe is idempotent in the callback form — once the
removal for key `k` has run, running it again leaves the emitter exactly as
after the first run.  (The once-guarded channel form of the later iteration
is likewise a no-op on repeat calls; only the unguarded channel form of the
core file faults, as the counterexample shows.) -/
theorem C8_callback_off_idempotent :
    ∀ (e : Emitter σ) (k : Nat), Off (Off e k) k = Off e k := by
  intro e k
  simp [Off, List.filter_filter]

/-- C9: the recursive-broadcast test terminates with the counter at exactly
5 — one external broadcast on the emitter whose single subscriber
increments and re-broadcasts while the counter is below 5. -/
theorem C9_recursive_emit_counter : EmitRec 0 = 5 := by
  simp [EmitRec, recConsumer]

/-- C10 at the failing input: in the context iteration, an emitter holding
two subscriptions for the same shape loses BOTH when one is removed — after
`OffCtx` for the first subscription, the shape's bucket is gone entirely and
a subsequent broadcast delivers to nobody (empty trace), although the second
subscription was never unsubscribed. -/
theorem C10_off_drops_sibling_subscription :
    (let p1 := OnCtx ({} : CtxEmitter Nat) Ty.event fun s _ => s + 1
     let p2 := OnCtx p1.1 Ty.event fun s _ => s + 10
     let e3 := OffCtx p2.1 Ty.event p1.2
     lookupBucket e3.subs Ty.event = none ∧
       EmitCtx (some e3) (some (background : Ctx Nat)) Ty.event (Val.ev 0 0) 0 =
         .ok (0, none, [])) :=
  ⟨rfl, rfl⟩

end Mint
